import Mathlib

/-!
Verification of the protocol codec and facade of the python-ts3 library
(`src/ts3/__init__.py`): the character escaper, the command/response line
codec, the response object, and the `clientkick` facade method.

Strings are modelled as `List Char`; Python dicts (which preserve insertion
order and overwrite values in place) as ordered association lists.
-/

set_option maxHeartbeats 1000000

namespace TS3

/-- Embeds Python `str.replace(old, new)` for a one-character pattern `a`:
scan left to right, replacing every occurrence of `a` by `r`. -/
def replace1 (a : Char) (r : List Char) : List Char → List Char
  | [] => []
  | c :: cs => if c = a then r ++ replace1 a r cs else c :: replace1 a r cs

/-- Embeds Python `str.replace(old, new)` for a two-character pattern `[a, b]`:
scan left to right; on a match emit `r` and continue after the matched pair
(leftmost, non-overlapping matching, as in CPython). -/
def replace2 (a b : Char) (r : List Char) : List Char → List Char
  | [] => []
  | [c] => [c]
  | c :: d :: cs =>
    if c = a ∧ d = b then r ++ replace2 a b r cs
    else c :: replace2 a b r (d :: cs)

/-- Embeds Python `sep.join(parts)`. -/
def joinSep (sep : List Char) : List (List Char) → List Char
  | [] => []
  | [x] => x
  | x :: y :: xs => x ++ sep ++ joinSep sep (y :: xs)

/-- Concatenation of `f` mapped over a string; used to characterise the
escaper character by character. -/
def mapConcat (f : Char → List Char) : List Char → List Char
  | [] => []
  | c :: cs => f c ++ mapConcat f cs

/-- Characters removed by Python `str.strip()` (ASCII whitespace). -/
def pyIsSpace (c : Char) : Bool :=
  c == ' ' || c == '\t' || c == '\n' || c == Char.ofNat 11 || c == Char.ofNat 12 ||
    c == Char.ofNat 13

/-- Embeds Python `str.strip()`: drop whitespace from both ends. -/
def pyStrip (s : List Char) : List Char :=
  ((s.dropWhile pyIsSpace).reverse.dropWhile pyIsSpace).reverse

/-- The `ts3_escape` table from the source, as (raw character, code letter)
pairs; the wire escape sequence for a raw character is a backslash followed
by its code letter, exactly as in the source's eleven
`(chr(..), backslash-letter)` entries, in source order. -/
def ts3_escape : List (Char × Char) :=
  [('\\', '\\'), ('/', '/'), (' ', 's'), ('|', 'p'),
   (Char.ofNat 7, 'a'), (Char.ofNat 8, 'b'), (Char.ofNat 12, 'f'),
   ('\n', 'n'), (Char.ofNat 13, 'r'), ('\t', 't'), (Char.ofNat 11, 'v')]

/-- Embeds `TS3Proto._escape_str` on a string value: the fold of
`value.replace(i, j)` over the escape table, in table order. -/
def escape_str (v : List Char) : List Char :=
  ts3_escape.foldl (fun acc p => replace1 p.1 ['\\', p.2] acc) v

/-- Embeds `TS3Proto._unescape_str` on a string value: the fold of
`value.replace(j, i)` over the escape table, in table order, with the
two-character escape sequence as the pattern. -/
def unescape_str (v : List Char) : List Char :=
  ts3_escape.foldl (fun acc p => replace2 '\\' p.2 [p.1] acc) v

/-- The character for a decimal digit (the argument is reduced modulo ten, so
the result is always one of the ten digit characters). -/
def digitChar (d : Nat) : Char :=
  Char.ofNat (48 + d % 10)

/-- Decimal digits of a natural number; fuel-indexed helper (callers pass
enough fuel, at least one plus the number itself). -/
def natCharsAux : Nat → Nat → List Char
  | 0, _ => []
  | fuel + 1, n =>
    if n < 10 then [digitChar n]
    else natCharsAux fuel (n / 10) ++ [digitChar (n % 10)]

/-- Embeds Python `str(value)` for an integer value: decimal form with an
optional minus sign. -/
def intChars (n : Int) : List Char :=
  if n < 0 then '-' :: natCharsAux (n.natAbs + 1) n.natAbs
  else natCharsAux (n.natAbs + 1) n.natAbs

/-- A Python scalar accepted by `_escape_str`: a string or an integer. -/
inductive PyScalar where
  | s : List Char → PyScalar
  | i : Int → PyScalar
  deriving DecidableEq

/-- A parameter value accepted by `construct_command`: a scalar, or a single
nested list of scalars (the one nesting level the source supports, per its
docstring "Keys can have a single nested list"). -/
inductive PyVal where
  | scalar : PyScalar → PyVal
  | list : List PyScalar → PyVal
  deriving DecidableEq

/-- Embeds `TS3Proto._escape_str`: integers short-circuit to `str(value)` and
are never passed through the replace chain; strings are escaped. -/
def escape_scalar : PyScalar → List Char
  | .i n => intChars n
  | .s v => escape_str v

/-- The token appended by one iteration of the `for key in keys` loop of
`construct_command` (inlined in the source): a list value yields the
pipe-joined `key=escaped` group, a scalar value yields `key=escaped`. -/
def key_token (kv : List Char × PyVal) : List Char :=
  match kv.2 with
  | .list nests => joinSep ['|'] (nests.map (fun nest => kv.1 ++ ['='] ++ escape_scalar nest))
  | .scalar v => kv.1 ++ ['='] ++ escape_scalar v

/-- Embeds `TS3Proto.construct_command`. `keys` is the parameter dict in
insertion order (the spec's ordered parameter mapping); the `if keys:` and
`if opts:` guards in the source only skip empty loops, so they need no
separate branch here. -/
def construct_command (command : List Char) (keys : List (List Char × PyVal))
    (opts : List (List Char)) : List Char :=
  let cstr := [command]
  let cstr := keys.foldl (fun acc kv => acc ++ [key_token kv]) cstr
  let cstr := opts.foldl (fun acc o => acc ++ [['-'] ++ o]) cstr
  joinSep [' '] cstr

/-- A decoded record: a Python dict in insertion order; a key that appeared
with no `=` maps to `none` (Python `None`). -/
abbrev Record := List (List Char × Option (List Char))

/-- Embeds Python dict assignment `d[k] = v`: an existing key keeps its
position and gets the new value, a new key is appended. -/
def dictInsert (k : List Char) (v : Option (List Char)) : Record → Record
  | [] => [(k, v)]
  | kv :: rest => if kv.1 = k then (k, v) :: rest else kv :: dictInsert k v rest

/-- Embeds Python dict lookup `d[k]`, as an `Option` of the stored value. -/
def dictGet (d : Record) (k : List Char) : Option (Option (List Char)) :=
  (d.find? (fun kv => kv.1 == k)).map Prod.snd

/-- Result of `parse_data`: the source returns either a single dict or a list
of dicts. -/
inductive ParsedData where
  | record : Record → ParsedData
  | records : List Record → ParsedData
  deriving DecidableEq

/-- One iteration of the chunk loop in `parse_data`: strip the chunk, split it
on `=`; with no `=` the chunk is a bare key mapping to `None`; otherwise the
key is everything before the first `=` and the value is the rest rejoined
with `=` (the source joins only when more than one `=` was found, but joining
a one-element list is the element itself) and unescaped. The empty split
result is unreachable (`split` never returns an empty list). -/
def processChunk (acc : Record) (chunk : List Char) : Record :=
  match (pyStrip chunk).splitOn '=' with
  | [] => acc
  | [k] => dictInsert k none acc
  | k :: v :: rest => dictInsert k (some (unescape_str (joinSep ['='] (v :: rest)))) acc

/-- The single-record branch of `parse_data`: split on spaces and process each
chunk into the dict, starting from the empty dict. -/
def parse_chunks (d : List Char) : Record :=
  (d.splitOn ' ').foldl processChunk []

/-- The recursive call `parse_data(part)` made on each pipe-separated part of a
multi-record line: a part contains no `|`, so the recursive call re-strips the
part and always takes the single-record branch. -/
def parse_data_part (part : List Char) : Record :=
  parse_chunks (pyStrip part)

/-- Embeds `TS3Proto.parse_data`: strip, split on `|`; more than one part means
one record per part, otherwise a single record parsed from the space-separated
chunks. -/
def parse_data (data : List Char) : ParsedData :=
  let d := pyStrip data
  let multipart := d.splitOn '|'
  if 1 < multipart.length then .records (multipart.map parse_data_part)
  else .record (parse_chunks d)

/-- Embeds `TS3Proto.parse_response`: drop the six characters of the literal
`"error "` header (`response[6:]`) and parse the remainder as data. -/
def parse_response (response : List Char) : ParsedData :=
  parse_data (response.drop 6)

/-- Embeds the data normalisation in `TS3Response.__init__`: a list result is
kept as is, a truthy (non-empty) dict is wrapped into a one-element list, an
empty dict becomes the empty list. -/
def response_records : ParsedData → List Record
  | .records l => l
  | .record r => if r.isEmpty then [] else [r]

/-- The `TS3Response` object: parsed status and normalised data records. -/
structure TS3Response where
  response : ParsedData
  data : List Record
  deriving DecidableEq

/-- Embeds `TS3Response.__init__` from the raw status line and raw data line. -/
def mkTS3Response (response data : List Char) : TS3Response :=
  { response := parse_response response, data := response_records (parse_data data) }

/-- Embeds `TS3Response.is_successful`: `self.response['msg'] == 'ok'`. When
the parsed status is a list (a pipe in the status line) the Python indexing
with a string key would fail; that case is modelled as not successful. -/
def is_successful (r : TS3Response) : Bool :=
  match r.response with
  | .record rec => dictGet rec (String.toList "msg") == some (some (String.toList "ok"))
  | .records _ => false

/-- Python exceptions raised along the modelled control paths. -/
inductive PyExn where
  | noConnection
  | nameError
  | invalidArguments
  | attributeError
  deriving DecidableEq

/-- Result of running a modelled method: a returned value or a raised
exception. -/
inductive PyResult (α : Type) where
  | ok : α → PyResult α
  | exn : PyExn → PyResult α
  deriving DecidableEq

/-- Truthiness of the expression `self.is_connected` as it appears in
`check_connection`: `is_connected` is a plain method (it has no `@property`
decorator), so the attribute access denotes the bound-method object, which is
always truthy in Python, whatever the `_connected` flag holds. -/
def is_connected_attr_truthy (_connected : Bool) : Bool :=
  true

/-- Embeds `TS3Proto.check_connection`: raises iff `not self.is_connected`
is true. The condition tests the bound method, not the flag, so it is always
false; and were the branch ever taken, `raise NoConnectionError` names an
undefined identifier (the class defined at the top of the file is
`NoConnection`), so executing it would raise `NameError`. -/
def check_connection (connected : Bool) : Option PyExn :=
  if is_connected_attr_truthy connected = false then some .nameError else none

/-- Python truthiness of an optional integer argument (`None` and `0` are
falsy). -/
def pyTruthyInt : Option Int → Bool
  | none => false
  | some n => n != 0

/-- Python truthiness of an optional string argument (`None` and the empty
string are falsy). -/
def pyTruthyStr : Option (List Char) → Bool
  | none => false
  | some s => !s.isEmpty

/-- Embeds `TS3Server.clientkick`. The result is `ok (some (clid, reasonid,
reasonmsg))` when the method reaches `send_command('clientkick', ...)` with
those key values, `ok none` for the `return False` paths, and `exn e` when an
exception is raised. On the database-id path the source evaluates
`self.send_command('clientlist').values()`; `send_command` returns a
`TS3Response`, which defines no `values` attribute, so that path raises
`AttributeError` before any database-id comparison is made. -/
def clientkick (clid cldbid : Option Int) (reasonid : Int)
    (message : Option (List Char)) : PyResult (Option (Int × Int × List Char)) :=
  if pyTruthyInt cldbid then
    .exn .attributeError
  else if pyTruthyInt clid then
    let client : Int := clid.getD 0
    let msg := if pyTruthyStr message then (message.getD []).take 40 else []
    if client != 0 then .ok (some (client, reasonid, msg)) else .ok none
  else
    .exn .invalidArguments

/-- Per-character form of the escaper (helper for proofs): the source's replace
chain rewrites each character of the input independently, in table order. -/
def encChar (c : Char) : List Char :=
  if c = '\\' then ['\\', '\\']
  else if c = '/' then ['\\', '/']
  else if c = ' ' then ['\\', 's']
  else if c = '|' then ['\\', 'p']
  else if c = Char.ofNat 7 then ['\\', 'a']
  else if c = Char.ofNat 8 then ['\\', 'b']
  else if c = Char.ofNat 12 then ['\\', 'f']
  else if c = '\n' then ['\\', 'n']
  else if c = Char.ofNat 13 then ['\\', 'r']
  else if c = '\t' then ['\\', 't']
  else if c = Char.ofNat 11 then ['\\', 'v']
  else [c]

/-- Rendering of one parameter following the words of the spec (section 4.2):
a list value emits one `key=escapedValue` per element joined by `|`; a scalar
value emits a single `key=escapedValue`; integer values render as their
decimal string form and are never escaped. -/
def specParamToken (kv : List Char × PyVal) : List Char :=
  match kv.2 with
  | .scalar v => kv.1 ++ ['='] ++ escape_scalar v
  | .list vs => joinSep ['|'] (vs.map (fun v => kv.1 ++ ['='] ++ escape_scalar v))

/-- Line encoder following the words of the spec (section 4.2): the command
name, then the parameter tokens in caller order, then one `-option` token per
option, all joined with single spaces, with no trailing line terminator. -/
def specEncode (command : List Char) (keys : List (List Char × PyVal))
    (opts : List (List Char)) : List Char :=
  joinSep [' '] ([command] ++ keys.map specParamToken ++ opts.map (fun o => ['-'] ++ o))

/-! ### Helper lemmas about the escaper -/

theorem replace1_append (a : Char) (r u v : List Char) :
    replace1 a r (u ++ v) = replace1 a r u ++ replace1 a r v := by
  induction u with
  | nil => simp [replace1]
  | cons c cs ih =>
    simp only [List.cons_append, replace1]
    split <;> simp [ih]

theorem escape_str_append (u v : List Char) :
    escape_str (u ++ v) = escape_str u ++ escape_str v := by
  simp [escape_str, ts3_escape, List.foldl, replace1_append]

theorem escape_str_single (c : Char) : escape_str [c] = encChar c := by
  by_cases h1 : c = '\\'
  · subst h1; decide
  by_cases h2 : c = '/'
  · subst h2; decide
  by_cases h3 : c = ' '
  · subst h3; decide
  by_cases h4 : c = '|'
  · subst h4; decide
  by_cases h5 : c = Char.ofNat 7
  · subst h5; decide
  by_cases h6 : c = Char.ofNat 8
  · subst h6; decide
  by_cases h7 : c = Char.ofNat 12
  · subst h7; decide
  by_cases h8 : c = '\n'
  · subst h8; decide
  by_cases h9 : c = Char.ofNat 13
  · subst h9; decide
  by_cases h10 : c = '\t'
  · subst h10; decide
  by_cases h11 : c = Char.ofNat 11
  · subst h11; decide
  simp [escape_str, ts3_escape, List.foldl, replace1, encChar,
    h1, h2, h3, h4, h5, h6, h7, h8, h9, h10, h11]

theorem escape_eq (v : List Char) : escape_str v = mapConcat encChar v := by
  induction v with
  | nil => rfl
  | cons c cs ih =>
    have h : (c :: cs) = [c] ++ cs := rfl
    rw [h, escape_str_append, escape_str_single, ih]
    rfl

theorem mapConcat_eq_self (g : Char → List Char) (s : List Char)
    (h : ∀ c ∈ s, g c = [c]) : mapConcat g s = s := by
  induction s with
  | nil => rfl
  | cons c cs ih =>
    simp [mapConcat, h c (List.mem_cons_self c cs),
      ih (fun c' h' => h c' (List.mem_cons_of_mem c h'))]

theorem replace2_cons_ne (a b : Char) (r : List Char) (c : Char) (v : List Char)
    (h : c ≠ a) : replace2 a b r (c :: v) = c :: replace2 a b r v := by
  cases v with
  | nil => simp [replace2]
  | cons d vs => simp [replace2, h]

theorem replace2_mapConcat (x t : Char) (g : Char → List Char) (s : List Char)
    (H : ∀ c ∈ s, (∃ d, g c = [d] ∧ d ≠ '\\') ∨ ∃ y, g c = ['\\', y] ∧ y ≠ '\\') :
    replace2 '\\' x [t] (mapConcat g s)
      = mapConcat (fun c => if g c = ['\\', x] then [t] else g c) s := by
  induction s with
  | nil => rfl
  | cons c cs ih =>
    have hcs : ∀ c' ∈ cs, (∃ d, g c' = [d] ∧ d ≠ '\\') ∨ ∃ y, g c' = ['\\', y] ∧ y ≠ '\\' :=
      fun c' h' => H c' (List.mem_cons_of_mem c h')
    have ihr := ih hcs
    rcases H c (List.mem_cons_self c cs) with ⟨d, hg, hd⟩ | ⟨y, hg, hy⟩
    · have hL : mapConcat g (c :: cs) = d :: mapConcat g cs := by simp [mapConcat, hg]
      have hne : ([d] : List Char) ≠ ['\\', x] := by simp
      rw [hL, replace2_cons_ne _ _ _ _ _ hd, ihr]
      simp only [mapConcat, hg, if_neg hne, List.singleton_append]
    · have hL : mapConcat g (c :: cs) = '\\' :: y :: mapConcat g cs := by simp [mapConcat, hg]
      by_cases hyx : y = x
      · subst hyx
        have hstep : replace2 '\\' y [t] ('\\' :: y :: mapConcat g cs)
            = [t] ++ replace2 '\\' y [t] (mapConcat g cs) := by simp [replace2]
        rw [hL, hstep, ihr]
        simp only [mapConcat, if_pos hg, List.singleton_append]
      · have hstep : replace2 '\\' x [t] ('\\' :: y :: mapConcat g cs)
            = '\\' :: replace2 '\\' x [t] (y :: mapConcat g cs) := by simp [replace2, hyx]
        have hne : (['\\', y] : List Char) ≠ ['\\', x] := by simp [hyx]
        rw [hL, hstep, replace2_cons_ne _ _ _ _ _ hy, ihr]
        simp only [mapConcat, hg, if_neg hne]
        rfl

theorem unescape_foldl (tbl : List (Char × Char)) (g : Char → List Char) (s : List Char)
    (hnd : (tbl.map Prod.snd).Nodup)
    (hI : ∀ c ∈ s, c ≠ '\\' ∧ (g c = [c] ∨ ∃ y, g c = ['\\', y] ∧ y ≠ '\\' ∧ (c, y) ∈ tbl)) :
    tbl.foldl (fun acc p => replace2 '\\' p.2 [p.1] acc) (mapConcat g s) = s := by
  induction tbl generalizing g with
  | nil =>
    simp only [List.foldl]
    refine mapConcat_eq_self g s (fun c hc => ?_)
    rcases (hI c hc).2 with h | ⟨y, _, _, hmem⟩
    · exact h
    · exact absurd hmem (List.not_mem_nil _)
  | cons p rest ih =>
    obtain ⟨a, y0⟩ := p
    simp only [List.foldl]
    rw [replace2_mapConcat y0 a g s (fun c hc => ?shape)]
    case shape =>
      rcases hI c hc with ⟨hcb, h | ⟨y, hgy, hy, _⟩⟩
      · exact Or.inl ⟨c, h, hcb⟩
      · exact Or.inr ⟨y, hgy, hy⟩
    have hnd' : (rest.map Prod.snd).Nodup := (List.nodup_cons.1 hnd).2
    have hy0 : y0 ∉ rest.map Prod.snd := (List.nodup_cons.1 hnd).1
    refine ih (fun c => if g c = ['\\', y0] then [a] else g c) hnd' (fun c hc => ?_)
    obtain ⟨hcb, hg⟩ := hI c hc
    refine ⟨hcb, ?_⟩
    show (if g c = ['\\', y0] then [a] else g c) = [c] ∨
      ∃ y, (if g c = ['\\', y0] then [a] else g c) = ['\\', y] ∧ y ≠ '\\' ∧ (c, y) ∈ rest
    rcases hg with h | ⟨y, hgy, hy, hmem⟩
    · have hgne : g c ≠ ['\\', y0] := by rw [h]; simp
      rw [if_neg hgne]
      exact Or.inl h
    · rcases List.mem_cons.1 hmem with heq | hmem'
      · have hca : c = a := congrArg Prod.fst heq
        have hyy : y = y0 := congrArg Prod.snd heq
        have hgc : g c = ['\\', y0] := by rw [hgy, hyy]
        rw [if_pos hgc, hca]
        exact Or.inl rfl
      · have hyne : y ≠ y0 := by
          intro hcon
          exact hy0 (hcon ▸ List.mem_map_of_mem Prod.snd hmem')
        have hgne : g c ≠ ['\\', y0] := by rw [hgy]; simp [hyne]
        rw [if_neg hgne]
        exact Or.inr ⟨y, hgy, hy, hmem'⟩

/-! ### Helper lemmas about membership, joining and digits -/

theorem mem_mapConcat {c : Char} {f : Char → List Char} {s : List Char}
    (h : c ∈ mapConcat f s) : ∃ a ∈ s, c ∈ f a := by
  induction s with
  | nil => simp [mapConcat] at h
  | cons b bs ih =>
    simp only [mapConcat, List.mem_append] at h
    rcases h with h | h
    · exact ⟨b, List.mem_cons_self b bs, h⟩
    · obtain ⟨a, ha, hc⟩ := ih h
      exact ⟨a, List.mem_cons_of_mem b ha, hc⟩

theorem encChar_no_newline (a : Char) : '\n' ∉ encChar a := by
  unfold encChar
  split_ifs with h1 h2 h3 h4 h5 h6 h7 h8 h9 h10 h11
  · decide
  · decide
  · decide
  · decide
  · decide
  · decide
  · decide
  · decide
  · decide
  · decide
  · decide
  · intro hmem
    rw [List.mem_singleton] at hmem
    exact h8 hmem.symm

theorem escape_str_no_newline (v : List Char) : '\n' ∉ escape_str v := by
  rw [escape_eq]
  intro h
  obtain ⟨a, _, hc⟩ := mem_mapConcat h
  exact encChar_no_newline a hc

theorem digitChar_ordinary (n : Nat) :
    digitChar n ≠ '\n' ∧ encChar (digitChar n) = [digitChar n] := by
  have hb : ∀ m, m < 10 →
      Char.ofNat (48 + m) ≠ '\n' ∧ encChar (Char.ofNat (48 + m)) = [Char.ofNat (48 + m)] := by
    decide
  exact hb (n % 10) (Nat.mod_lt n (by decide))

theorem natCharsAux_no_newline (fuel n : Nat) : '\n' ∉ natCharsAux fuel n := by
  induction fuel generalizing n with
  | zero => simp [natCharsAux]
  | succ fuel ih =>
    simp only [natCharsAux]
    split_ifs
    · intro hmem
      rw [List.mem_singleton] at hmem
      exact (digitChar_ordinary n).1 hmem.symm
    · intro hmem
      rcases List.mem_append.1 hmem with h | h
      · exact ih (n / 10) h
      · rw [List.mem_singleton] at h
        exact (digitChar_ordinary (n % 10)).1 h.symm

theorem intChars_no_newline (n : Int) : '\n' ∉ intChars n := by
  unfold intChars
  split_ifs
  · intro hmem
    rcases List.mem_cons.1 hmem with h | h
    · exact absurd h (by decide)
    · exact natCharsAux_no_newline _ _ h
  · exact natCharsAux_no_newline _ _

theorem escape_scalar_no_newline (v : PyScalar) : '\n' ∉ escape_scalar v := by
  cases v with
  | s str => exact escape_str_no_newline str
  | i n => exact intChars_no_newline n

theorem mem_joinSep {c : Char} {sep : List Char} {l : List (List Char)}
    (h : c ∈ joinSep sep l) : c ∈ sep ∨ ∃ t ∈ l, c ∈ t := by
  induction l with
  | nil => simp [joinSep] at h
  | cons x xs ih =>
    cases xs with
    | nil =>
      simp only [joinSep] at h
      exact Or.inr ⟨x, List.mem_singleton_self x, h⟩
    | cons y ys =>
      simp only [joinSep, List.append_assoc, List.mem_append] at h
      rcases h with h | h | h
      · exact Or.inr ⟨x, List.mem_cons_self x _, h⟩
      · exact Or.inl h
      · rcases ih h with h' | ⟨t, ht, hc⟩
        · exact Or.inl h'
        · exact Or.inr ⟨t, List.mem_cons_of_mem x ht, hc⟩

theorem escape_str_eq_self (v : List Char) (h : ∀ c ∈ v, encChar c = [c]) :
    escape_str v = v := by
  rw [escape_eq]
  exact mapConcat_eq_self _ _ h

theorem natCharsAux_ordinary (fuel n : Nat) :
    ∀ c ∈ natCharsAux fuel n, encChar c = [c] := by
  induction fuel generalizing n with
  | zero => simp [natCharsAux]
  | succ fuel ih =>
    intro c hc
    simp only [natCharsAux] at hc
    split_ifs at hc
    · rw [List.mem_singleton] at hc
      exact hc ▸ (digitChar_ordinary n).2
    · rcases List.mem_append.1 hc with h | h
      · exact ih (n / 10) c h
      · rw [List.mem_singleton] at h
        exact h ▸ (digitChar_ordinary (n % 10)).2

theorem intChars_unescaped (n : Int) : escape_str (intChars n) = intChars n := by
  refine escape_str_eq_self _ (fun c hc => ?_)
  unfold intChars at hc
  split_ifs at hc
  · rcases List.mem_cons.1 hc with h | h
    · rw [h]; decide
    · exact natCharsAux_ordinary _ _ c h
  · exact natCharsAux_ordinary _ _ c hc

/-! ### Helper lemmas about command construction -/

theorem foldl_append_map {α β : Type} (f : α → β) (l : List α) (init : List β) :
    l.foldl (fun acc x => acc ++ [f x]) init = init ++ l.map f := by
  induction l generalizing init with
  | nil => simp
  | cons x xs ih => simp [List.foldl, ih]

theorem key_token_eq_specParamToken (kv : List Char × PyVal) :
    key_token kv = specParamToken kv := by
  rcases kv with ⟨k, v⟩
  cases v <;> rfl

theorem construct_command_eq (cmd : List Char) (keys : List (List Char × PyVal))
    (opts : List (List Char)) :
    construct_command cmd keys opts = specEncode cmd keys opts := by
  show joinSep [' ']
      (opts.foldl (fun acc o => acc ++ [['-'] ++ o])
        (keys.foldl (fun acc kv => acc ++ [key_token kv]) [cmd]))
    = specEncode cmd keys opts
  rw [foldl_append_map key_token keys [cmd],
    foldl_append_map (fun o => ['-'] ++ o) opts ([cmd] ++ keys.map key_token),
    show key_token = specParamToken from funext key_token_eq_specParamToken]
  rfl

theorem take_of_length_le {α : Type} (l : List α) (n : Nat) (h : l.length ≤ n) :
    l.take n = l := by
  induction l generalizing n with
  | nil => simp
  | cons x xs ih =>
    cases n with
    | zero => simp at h
    | succ k =>
      simp only [List.take_succ_cons, List.cons.injEq, true_and]
      exact ih k (by simpa using h)

/-! ### Claim theorems -/

/-- Claim C1, counterexample: the claim fails as stated. For the two-character
input backslash-then-s, escaping yields backslash-backslash-s, and the
fixed-order unescape first collapses the double backslash and then turns the
resulting backslash-s into a space, so the round trip returns a single space
instead of the original string. -/
theorem escape_roundtrip_cex :
    unescape_str (escape_str ['\\', 's']) = [' '] ∧
      unescape_str (escape_str ['\\', 's']) ≠ ['\\', 's'] := by
  decide

/-- Claim C1, amended: for every string containing no backslash character
(drawn from the ten non-backslash symbols of the escape alphabet plus
ordinary characters), unescaping the escaped string returns the original. -/
theorem escape_unescape_roundtrip (s : List Char) (h : '\\' ∉ s) :
    unescape_str (escape_str s) = s := by
  rw [escape_eq]
  show ts3_escape.foldl (fun acc p => replace2 '\\' p.2 [p.1] acc) (mapConcat encChar s) = s
  refine unescape_foldl ts3_escape encChar s (by decide) (fun c hc => ?_)
  have hcb : c ≠ '\\' := fun hcc => h (hcc ▸ hc)
  refine ⟨hcb, ?_⟩
  by_cases h2 : c = '/'
  · subst h2; exact Or.inr ⟨'/', by decide, by decide, by decide⟩
  by_cases h3 : c = ' '
  · subst h3; exact Or.inr ⟨'s', by decide, by decide, by decide⟩
  by_cases h4 : c = '|'
  · subst h4; exact Or.inr ⟨'p', by decide, by decide, by decide⟩
  by_cases h5 : c = Char.ofNat 7
  · subst h5; exact Or.inr ⟨'a', by decide, by decide, by decide⟩
  by_cases h6 : c = Char.ofNat 8
  · subst h6; exact Or.inr ⟨'b', by decide, by decide, by decide⟩
  by_cases h7 : c = Char.ofNat 12
  · subst h7; exact Or.inr ⟨'f', by decide, by decide, by decide⟩
  by_cases h8 : c = '\n'
  · subst h8; exact Or.inr ⟨'n', by decide, by decide, by decide⟩
  by_cases h9 : c = Char.ofNat 13
  · subst h9; exact Or.inr ⟨'r', by decide, by decide, by decide⟩
  by_cases h10 : c = '\t'
  · subst h10; exact Or.inr ⟨'t', by decide, by decide, by decide⟩
  by_cases h11 : c = Char.ofNat 11
  · subst h11; exact Or.inr ⟨'v', by decide, by decide, by decide⟩
  exact Or.inl (by simp [encChar, hcb, h2, h3, h4, h5, h6, h7, h8, h9, h10, h11])

/-- Claim C1, witness: the amended round trip evaluated at a concrete
backslash-free string exercising the slash, space and pipe escapes. -/
theorem escape_unescape_roundtrip_witness :
    '\\' ∉ String.toList "a b/c|d" ∧
      unescape_str (escape_str (String.toList "a b/c|d")) = String.toList "a b/c|d" :=
  ⟨by decide, escape_unescape_roundtrip (String.toList "a b/c|d") (by decide)⟩

/-- Claim C2: evaluation of the code on the empty data line. Splitting the
empty string yields a list holding one empty chunk, the empty chunk has no
equals sign, so `parse_data` returns the one-entry dict mapping the empty key
to `None` — not the empty dict — and the response layer wraps it as one
record, not zero. -/
theorem parse_data_empty_line_eval :
    parse_data [] = .record [([], none)] ∧
      parse_data [] ≠ .record [] ∧
      (mkTS3Response (String.toList "error id=0 msg=ok") []).data = [[([], none)]] := by
  refine ⟨by decide, by decide, by decide⟩

/-- Claim C3: `check_connection` never raises, for either value of the
connected flag, because `not self.is_connected` tests the truthiness of the
bound method object (the call parentheses are missing) and so is always
false; in particular it does not raise the no-connection error while
disconnected. -/
theorem check_connection_never_raises :
    check_connection false = none ∧ check_connection true = none ∧
      check_connection false ≠ some PyExn.noConnection := by
  decide

/-- Claim C4: `parse_response` strips exactly the six-character `"error "`
header and parses the remainder with the data grammar; the status record for
`id=0 msg=ok` makes `is_successful` true, and the one for
`id=512 msg=invalid\scommand` makes it false with the message unescaped to
"invalid command". The untyped status record stores the code `N` as its
decimal text, which is how the source keeps it. -/
theorem parse_response_status_spec :
    (∀ rest : List Char, parse_response (String.toList "error " ++ rest) = parse_data rest) ∧
      parse_response (String.toList "error id=0 msg=ok")
        = .record [(String.toList "id", some (String.toList "0")),
                   (String.toList "msg", some (String.toList "ok"))] ∧
      is_successful (mkTS3Response (String.toList "error id=0 msg=ok") []) = true ∧
      parse_response (String.toList "error id=512 msg=invalid\\scommand")
        = .record [(String.toList "id", some (String.toList "512")),
                   (String.toList "msg", some (String.toList "invalid command"))] ∧
      is_successful (mkTS3Response (String.toList "error id=512 msg=invalid\\scommand") [])
        = false := by
  refine ⟨fun rest => ?_, by decide, by decide, by decide, by decide⟩
  unfold parse_response
  have h6 : (String.toList "error ").length = 6 := rfl
  rw [← h6, List.drop_left]

/-- Claim C5: evaluation of the two `clientkick` paths. With neither clid nor
cldbid the argument-validation error is raised, as claimed; but with a cldbid
the source calls `.values()` on the `TS3Response` returned by `send_command`,
an attribute that class does not define, so the path raises `AttributeError`
instead of ever returning False. -/
theorem clientkick_eval :
    clientkick none none 5 none = .exn .invalidArguments ∧
      clientkick none (some 7) 5 none = .exn .attributeError ∧
      ∀ e, clientkick none (some 7) 5 none ≠ .ok e := by
  refine ⟨by decide, by decide, fun e => by simp [clientkick, pyTruthyInt]⟩

/-- Claim C6: `construct_command` produces exactly the spec's rendering — the
command name, one `key=escapedValue` token per scalar parameter in caller
order, list values joined by pipes, `-option` tokens, all joined by single
spaces with no trailing terminator — and integer values render as their
decimal string form and are never escaped (escaping a rendered integer
changes nothing). -/
theorem construct_command_encodes (cmd : List Char) (keys : List (List Char × PyVal))
    (opts : List (List Char)) (n : Int) :
    construct_command cmd keys opts = specEncode cmd keys opts ∧
      escape_scalar (.i n) = intChars n ∧
      escape_str (intChars n) = intChars n ∧
      escape_scalar (.i 512) = String.toList "512" ∧
      escape_scalar (.i (-7)) = String.toList "-7" := by
  exact ⟨construct_command_eq cmd keys opts, rfl, intChars_unescaped n, by decide, by decide⟩

/-- Claim C7: a pipe-delimited data line decodes to one record per part, in
order, each part decoded with the single-record grammar; in particular the
spec's two-record example decodes to the claimed two records in order. -/
theorem parse_data_multirecord :
    parse_data (String.toList "clid=1 name=a|clid=2 name=b")
      = .records [[(String.toList "clid", some (String.toList "1")),
                   (String.toList "name", some (String.toList "a"))],
                  [(String.toList "clid", some (String.toList "2")),
                   (String.toList "name", some (String.toList "b"))]] ∧
      ∀ data : List Char, 1 < ((pyStrip data).splitOn '|').length →
        parse_data data = .records (((pyStrip data).splitOn '|').map parse_data_part) := by
  refine ⟨by decide, fun data h => ?_⟩
  unfold parse_data
  simp only [if_pos h]

/-- Claim C7, witness: the multi-record branch taken on a concrete
two-record line. -/
theorem parse_data_multirecord_witness :
    1 < ((pyStrip (String.toList "a=1|b=2")).splitOn '|').length ∧
      parse_data (String.toList "a=1|b=2")
        = .records (((pyStrip (String.toList "a=1|b=2")).splitOn '|').map parse_data_part) :=
  ⟨by decide, parse_data_multirecord.2 (String.toList "a=1|b=2") (by decide)⟩

/-- Claim C8, counterexample: the claim fails as stated when quantified over
every command name, because only parameter values are escaped; a command name
containing a raw newline reaches the output verbatim. -/
theorem construct_command_newline_cex :
    '\n' ∈ construct_command (String.toList "a\nb") [] [] := by
  decide

/-- Claim C8, amended: whenever the command name, the parameter keys and the
option names themselves contain no raw newline, the serialized command line
contains no raw newline — the escaping of parameter values (including
integer rendering) enforces one-line output for arbitrary values. -/
theorem construct_command_one_line (cmd : List Char) (keys : List (List Char × PyVal))
    (opts : List (List Char)) (hc : '\n' ∉ cmd)
    (hk : ∀ kv ∈ keys, '\n' ∉ kv.1) (ho : ∀ o ∈ opts, '\n' ∉ o) :
    '\n' ∉ construct_command cmd keys opts := by
  rw [construct_command_eq]
  unfold specEncode
  intro hmem
  rcases mem_joinSep hmem with hsep | ⟨tok, htok, hct⟩
  · exact absurd hsep (by decide)
  rcases List.mem_append.1 htok with htok' | hopt
  rcases List.mem_append.1 htok' with hcmd | hkey
  · rw [List.mem_singleton] at hcmd
    exact hc (hcmd ▸ hct)
  · obtain ⟨kv, hkv, rfl⟩ := List.mem_map.1 hkey
    rcases kv with ⟨k, v⟩
    cases v with
    | scalar sc =>
      rcases List.mem_append.1 (by simpa [specParamToken] using hct) with h | h
      · exact hk (k, .scalar sc) hkv h
      · exact escape_scalar_no_newline sc h
    | list vs =>
      rcases mem_joinSep (by simpa [specParamToken] using hct) with h | ⟨t, ht, hct'⟩
      · exact absurd h (by decide)
      obtain ⟨sc, hsc, rfl⟩ := List.mem_map.1 ht
      rcases List.mem_append.1 hct' with h | h
      · exact hk (k, .list vs) hkv h
      · rcases List.mem_cons.1 h with h' | h'
        · exact absurd h' (by decide)
        · exact escape_scalar_no_newline sc h'
  · obtain ⟨o, ho', rfl⟩ := List.mem_map.1 hopt
    rcases List.mem_append.1 hct with h | h
    · exact absurd h (by decide)
    · exact ho o ho' h

/-- Claim C8, witness: a concrete command whose string value contains a
newline still serializes to a single line. -/
theorem construct_command_one_line_witness :
    '\n' ∉ String.toList "clientkick" ∧
      '\n' ∉ construct_command (String.toList "clientkick")
        [(String.toList "clid", .scalar (.i 1)),
         (String.toList "reasonmsg", .scalar (.s (String.toList "a\nb")))]
        [String.toList "away"] :=
  ⟨by decide,
    construct_command_one_line (String.toList "clientkick")
      [(String.toList "clid", .scalar (.i 1)),
       (String.toList "reasonmsg", .scalar (.s (String.toList "a\nb")))]
      [String.toList "away"] (by decide) (by decide) (by decide)⟩

/-- Claim C9: on the session-id path, `clientkick` passes to `send_command`
exactly the first forty characters of the kick message (`message[:40]`), a
message of at most forty characters unchanged, and the empty string when the
message is absent. -/
theorem clientkick_reasonmsg (c ty : Int) (m : List Char) (hc : c ≠ 0) :
    clientkick (some c) none ty (some m) = .ok (some (c, ty, m.take 40)) ∧
      clientkick (some c) none ty none = .ok (some (c, ty, [])) ∧
      (m.length ≤ 40 → m.take 40 = m) ∧
      (40 < m.length → (m.take 40).length = 40 ∧ m.take 40 ++ m.drop 40 = m) := by
  have hct : pyTruthyInt (some c) = true := by simp [pyTruthyInt, hc]
  refine ⟨?_, ?_, fun hlen => take_of_length_le m 40 hlen,
    fun hlen => ⟨by simp [List.length_take]; omega, List.take_append_drop 40 m⟩⟩
  · show (if pyTruthyInt none then _ else _) = _
    rw [if_neg (by decide), if_pos hct]
    show (if (c != 0) = true then _ else _) = _
    rw [if_pos (by simpa [bne] using hc)]
    cases m with
    | nil => rfl
    | cons a as => rfl
  · show (if pyTruthyInt none then _ else _) = _
    rw [if_neg (by decide), if_pos hct]
    show (if (c != 0) = true then _ else _) = _
    rw [if_pos (by simpa [bne] using hc)]
    rfl

/-- Claim C9, witness: kicking client 1 with a fifty-character message
transmits exactly the first forty characters. -/
theorem clientkick_reasonmsg_witness :
    (1 : Int) ≠ 0 ∧
      clientkick (some 1) none 4 (some (List.replicate 50 'x'))
        = .ok (some (1, 4, List.replicate 40 'x')) := by
  refine ⟨by decide, ?_⟩
  have h := clientkick_reasonmsg 1 4 (List.replicate 50 'x') (by decide)
  rw [h.1]
  decide

/-- Claim C10: the data field of a constructed `TS3Response` is always a list
of records: a multi-record decode is kept as is, a non-empty single record is
wrapped into a one-element list, and an empty record becomes the empty list
(that last branch of the source is unreachable from `parse_data`, which
always produces at least one key, but the wrapper implements it). -/
theorem response_data_always_list (status data : List Char) (rec : Record)
    (l : List Record) :
    (mkTS3Response status data).data = response_records (parse_data data) ∧
      response_records (.record []) = [] ∧
      (rec ≠ [] → response_records (.record rec) = [rec]) ∧
      response_records (.records l) = l := by
  refine ⟨rfl, rfl, fun h => ?_, rfl⟩
  cases rec with
  | nil => exact absurd rfl h
  | cons kv rest => rfl

/-- Claim C10, witness: the wrapper evaluated on a concrete non-empty
record. -/
theorem response_data_always_list_witness :
    ([(String.toList "a", none)] : Record) ≠ [] ∧
      response_records (.record [(String.toList "a", none)])
        = [[(String.toList "a", none)]] :=
  ⟨by decide,
    (response_data_always_list [] [] [(String.toList "a", none)] []).2.2.1 (by decide)⟩

end TS3
